import Mathlib

/-!
Verification of the Tresto repository core against its specification.

Shallow embedding conventions:
* `datetime` timestamps are modelled as integers (microseconds since the
  epoch); `timedelta.total_seconds()` comparisons between snapshots become
  integer absolute-difference comparisons.
* Python dictionaries become association lists whose key column is `Nodup`.
* Python exceptions become `Except` values; code that catches an exception
  pattern-matches on the `.error` constructor.
* External collaborators (LLM, browser driver, subprocess runner) are
  parameters: their outcomes are explicit inputs of the embedded functions.
-/

namespace Tresto

/-! ## Snapshot store (`tresto/ai/agent/tools/inspect/recording.py`) -/

/-- Domain errors raised by `RecordingManager` queries
(`ValueError` in the source, distinguished by message). -/
inductive RecErr where
  | outOfRange : RecErr
  | noHtml : RecErr
  | noScreenshot : RecErr
deriving DecidableEq, Repr

/-- `RecordingSources`: the time-indexed tables built at ingestion time.
HTML documents are strings; screenshots are abstracted to an identifier. -/
structure RecordingSources where
  htmlSnapshots : List (Int × String)
  screenshots : List (Int × Nat)
deriving Repr

/-- `RecordingManager` after construction: the read-only sources plus the
resolved `_time_range` (the constructor guarantees it is set). -/
structure RecordingManager where
  sources : RecordingSources
  timeRange : Int × Int
deriving Repr

/-- `RecordingManager.validate_timestamp`: `None` means the end of the range;
a timestamp outside `[start, end]` raises `ValueError`. -/
def RecordingManager.validate_timestamp (m : RecordingManager) (t : Option Int) :
    Except RecErr Int :=
  let ts := match t with
    | none => m.timeRange.2
    | some x => x
  if ts < m.timeRange.1 ∨ ts > m.timeRange.2 then .error .outOfRange else .ok ts

/-- The sort key `keyfunc` used in `get_html_at`/`get_screenshot_at`:
`(abs((t - ts).total_seconds()), 0 if t <= ts else 1)`. -/
def snapKey (ts t : Int) : Nat × Nat :=
  ((t - ts).natAbs, if t ≤ ts then 0 else 1)

/-- Strict lexicographic comparison of sort keys (Python tuple `<`). -/
def keyLtb (a b : Nat × Nat) : Bool :=
  a.1 < b.1 || (a.1 = b.1 && a.2 < b.2)

/-- Fold implementing Python `min(xs, key=f)` over `h :: t`: the first
element with minimal key wins (replacement only on strict decrease). -/
def pyMinByAux (f : Int → Nat × Nat) (h : Int) (t : List Int) : Int :=
  t.foldl (fun best x => if keyLtb (f x) (f best) then x else best) h

/-- Python `min(xs, key=f)`, `none` on an empty iterable. -/
def pyMinBy (f : Int → Nat × Nat) : List Int → Option Int
  | [] => none
  | h :: t => some (pyMinByAux f h t)

/-- Shared lookup logic of `get_html_at` and `get_screenshot_at`: the exact
snapshot if present, else the nearest neighbour by `keyfunc`, else nothing.
(The inner `lookup closest` cannot fail: `closest` is one of the keys.) -/
def nearestLookup {α : Type} (ts : Int) (snaps : List (Int × α)) : Option α :=
  match snaps.lookup ts with
  | some v => some v
  | none =>
    match pyMinBy (snapKey ts) (snaps.map Prod.fst) with
    | some closest => snaps.lookup closest
    | none => none

/-- `RecordingManager.get_html_at`. -/
def RecordingManager.get_html_at (m : RecordingManager) (t : Option Int) :
    Except RecErr String :=
  match m.validate_timestamp t with
  | .error e => .error e
  | .ok ts =>
    match nearestLookup ts m.sources.htmlSnapshots with
    | some v => .ok v
    | none => .error .noHtml

/-- `RecordingManager.get_screenshot_at`. -/
def RecordingManager.get_screenshot_at (m : RecordingManager) (t : Option Int) :
    Except RecErr Nat :=
  match m.validate_timestamp t with
  | .error e => .error e
  | .ok ts =>
    match nearestLookup ts m.sources.screenshots with
    | some v => .ok v
    | none => .error .noScreenshot

/-- A concrete store used to witness the query-contract theorem: two HTML
snapshots and two screenshots at times 0 and 10, range `[0, 10]`. -/
def demoManager : RecordingManager :=
  ⟨⟨[(0, "a"), (10, "b")], [(0, 5), (10, 6)]⟩, (0, 10)⟩

/-! ## Trace ingestion: timestamp normalisation
(`RecordingManager._load_sources_from_trace` in
`tresto/ai/agent/tools/inspect/recording.py`). Epoch timestamps are modelled
as exact rationals; `datetime.fromtimestamp(x / u)` becomes `x / u` seconds. -/

/-- The `to_dt` numeric-magnitude heuristic: values above `1e17` are
nanoseconds, above `1e14` microseconds, above `1e11` milliseconds, else
seconds; all are converted to epoch seconds. -/
def to_dt (x : ℚ) : ℚ :=
  if x > 1e17 then x / 1e9
  else if x > 1e14 then x / 1e6
  else if x > 1e11 then x / 1e3
  else x

/-- Python `a or b` over an optional number: `None` and `0` are falsy. -/
def pyOrQ (a b : Option ℚ) : Option ℚ :=
  match a with
  | some x => if x = 0 then b else some x
  | none => b

/-- One parsed trace event: the numeric timestamp fields consulted by
`choose_event_dt`, plus the inline snapshot markup (shape 1). -/
structure TraceEvent where
  wallTime : Option ℚ
  frameSwapWallTime : Option ℚ
  snapshotWallTime : Option ℚ
  timestamp : Option ℚ
  time : Option ℚ
  ts : Option ℚ
  endTime : Option ℚ
  startTime : Option ℚ
  snapshotHtml : Option String
deriving Repr

/-- `choose_event_dt`: prefer wall-clock fields, else fall back to
relative timestamp fields; the chosen raw value goes through `to_dt`. -/
def choose_event_dt (ev : TraceEvent) : Option ℚ :=
  match pyOrQ ev.wallTime (pyOrQ ev.frameSwapWallTime ev.snapshotWallTime) with
  | some w => some (to_dt w)
  | none =>
    match pyOrQ ev.timestamp
        (pyOrQ ev.time (pyOrQ ev.ts (pyOrQ ev.endTime ev.startTime))) with
    | some t => some (to_dt t)
    | none => none

/-- Python dict assignment `d[k] = v`: overwrite in place, else append. -/
def dictInsert (l : List (ℚ × String)) (k : ℚ) (v : String) : List (ℚ × String) :=
  if (l.map Prod.fst).contains k then
    l.map (fun p => if p.1 = k then (k, v) else p)
  else l ++ [(k, v)]

/-- The `html_snapshots` table built by the event loop of
`_load_sources_from_trace`, restricted to inline-markup events. -/
def loadHtmlSnapshots (events : List TraceEvent) : List (ℚ × String) :=
  events.foldl (fun acc ev =>
    match choose_event_dt ev, ev.snapshotHtml with
    | some t, some h => dictInsert acc t h
    | _, _ => acc) []

/-- `RecordingSources.time_range`: `(now, now)` when there are no snapshots,
else `(min times, max times)` over all snapshot timestamps. -/
def time_range (now : ℚ) (times : List ℚ) : ℚ × ℚ :=
  match times with
  | [] => (now, now)
  | h :: t => (t.foldl min h, t.foldl max h)

/-- Scenario B, first NDJSON event: raw timestamp 1000 (seconds scale). -/
def scenarioBEvent1 : TraceEvent :=
  ⟨none, none, none, some 1000, none, none, none, none, some "<html>one</html>"⟩

/-- Scenario B, second NDJSON event: raw timestamp `1e12`
(milliseconds scale). -/
def scenarioBEvent2 : TraceEvent :=
  ⟨none, none, none, some 1000000000000, none, none, none, none,
    some "<html>two</html>"⟩

/-! ## Python string helpers over `List Char` -/

/-- Python whitespace (the characters matched by `\s` on ASCII text and
stripped by `str.strip()`). -/
def isPySpace (c : Char) : Bool :=
  c = ' ' || c = '\t' || c = '\n' || c = '\r' || c = '\x0b' || c = '\x0c'

/-- Python `str.strip()`: drop leading and trailing whitespace. -/
def pyStrip (l : List Char) : List Char :=
  ((l.dropWhile isPySpace).reverse.dropWhile isPySpace).reverse

/-- Split at the first occurrence of `sep`: `some (before, after)` when `sep`
occurs, `none` otherwise (Python `s.split(sep, 1)`). -/
def splitOnce (sep : List Char) : List Char → Option (List Char × List Char)
  | [] => none
  | c :: rest =>
    if sep.isPrefixOf (c :: rest) then some ([], (c :: rest).drop sep.length)
    else
      match splitOnce sep rest with
      | some (pre, post) => some (c :: pre, post)
      | none => none

/-- The `[-1]` element of Python `s.split(sep, 1)`: the part after the first
occurrence of `sep` when it occurs, else the whole string. -/
def splitOnceLast (sep l : List Char) : List Char :=
  match splitOnce sep l with
  | some (_, post) => post
  | none => l

/-! ## Test-code accessors
(`TestAgentState.current_test_code` in `tresto/ai/agent/state/__init__.py`).
The on-disk file is modelled as `Option (List Char)` (`none` = missing). -/

/-- The comment header written by the `current_test_code` setter, up to but
not including the newline that terminates the instructions line. -/
def trestoHeader (ver name instr : List Char) : List Char :=
  "# Generated by Tresto v".data ++ ver ++
    "\n# Test name: ".data ++ name ++
    "\n# Test instructions: ".data ++ instr

/-- The `current_test_code` setter: the file content written for code `v`
(header lines, a blank line, then the code). -/
def set_current_test_code (ver name instr v : List Char) : List Char :=
  trestoHeader ver name instr ++ ('\n' :: '\n' :: '\n' :: v)

/-- The `current_test_code` getter: `None` for a missing file; for a file
starting with the generated-by marker, everything after the first blank line,
stripped; otherwise the raw file content. -/
def get_current_test_code (file : Option (List Char)) : Option (List Char) :=
  match file with
  | none => none
  | some s =>
    if "# Generated by Tresto".data.isPrefixOf s then
      some (pyStrip (splitOnceLast ('\n' :: ['\n']) s))
    else some s

/-! ## Markdown fence stripping
(`_strip_markdown_code_fences` in `tresto/ai/agent/tools/generate.py`, with an
identical copy in `tresto/ai/agent/agent.py`). The two regexes are embedded as
explicit scanners with the engine's leftmost-match, greedy-with-backtracking
order: pattern 1 is ``` then `\s*` then optional `python`/`py` then `\s*`
then a newline, then a lazy body terminated by a newline and ```;
pattern 2 (tried on the stripped text when pattern 1 fails) is anchored ```
then `\s*` then optional newline, a lazy body, optional newline, ``` and
trailing whitespace to the end. -/

/-- The candidate remainders of a greedy `\s*` at the head of `l`, in the
order a backtracking engine tries them: longest run consumed first. -/
def wsSplits (l : List Char) : List (List Char) :=
  (List.range ((l.takeWhile isPySpace).length + 1)).reverse.map (fun i => l.drop i)

/-- Case-insensitive literal match at the head of `l` (`re.IGNORECASE`). -/
def lcMatchesAt (s : String) (l : List Char) : Bool :=
  (l.take s.length).map Char.toLower == s.data

/-- The candidate remainders of `(?:python|py)?` at the head of `l`, in
engine order: `python`, then `py`, then the empty alternative. -/
def langSplits (l : List Char) : List (List Char) :=
  (if lcMatchesAt "python" l then [l.drop 6] else []) ++
    (if lcMatchesAt "py" l then [l.drop 2] else []) ++ [l]

/-- The final mandatory newline of the pattern-1 header: keep a candidate
only if it starts with a newline, and step past it. -/
def nlTail : List Char → Option (List Char)
  | '\n' :: r => some r
  | _ => none

/-- Body-start candidates of `\s*(?:python|py)?\s*\n` at the head of `l`,
in engine order. -/
def headerSplits (l : List Char) : List (List Char) :=
  (wsSplits l).flatMap (fun l1 =>
    (langSplits l1).flatMap (fun l2 =>
      (wsSplits l2).filterMap nlTail))

/-- The lazy body `([\s\S]*?)` terminated by the literal `"\n` ++ three
backticks: content up to the first such occurrence. -/
def findClose : List Char → Option (List Char)
  | [] => none
  | c :: rest =>
    if ('\n' :: ['`', '`', '`']).isPrefixOf (c :: rest) then some []
    else
      match findClose rest with
      | some body => some (c :: body)
      | none => none

/-- First `some` in a list of attempts (backtracking order). -/
def firstSome {α : Type} : List (Option α) → Option α
  | [] => none
  | some x :: _ => some x
  | none :: t => firstSome t

/-- Pattern-1 match attempt anchored at `l`: three backticks, a header
split, then the lazy body. -/
def fenceBodyAt (l : List Char) : Option (List Char) :=
  if ['`', '`', '`'].isPrefixOf l then
    firstSome ((headerSplits (l.drop 3)).map findClose)
  else none

/-- `re.search` of pattern 1: leftmost position admitting a match wins. -/
def searchFence : List Char → Option (List Char)
  | [] => none
  | c :: rest =>
    match fenceBodyAt (c :: rest) with
    | some b => some b
    | none => searchFence rest

/-- The closing context of pattern 2 at the end of the string:
optional newline, three backticks, then only whitespace to the end. -/
def closeEndMatches (r : List Char) : Bool :=
  (match r with
   | '\n' :: r2 => ['`', '`', '`'].isPrefixOf r2 && (r2.drop 3).all isPySpace
   | _ => false) ||
    (['`', '`', '`'].isPrefixOf r && (r.drop 3).all isPySpace)

/-- The lazy body of pattern 2: shortest prefix whose remainder satisfies
`p`. -/
def lazyBodyTo (p : List Char → Bool) : List Char → Option (List Char)
  | [] => if p [] then some [] else none
  | c :: rest =>
    if p (c :: rest) then some []
    else (lazyBodyTo p rest).map (fun b => c :: b)

/-- Pattern-2 match attempt (anchored `re.match` on the stripped text). -/
def fallbackBody (l : List Char) : Option (List Char) :=
  if ['`', '`', '`'].isPrefixOf l then
    firstSome ((wsSplits (l.drop 3)).flatMap (fun l1 =>
      (match l1 with
       | '\n' :: r => [lazyBodyTo closeEndMatches r]
       | _ => []) ++ [lazyBodyTo closeEndMatches l1]))
  else none

/-- `_strip_markdown_code_fences`: first fenced block (stripped) when
pattern 1 matches, else the pattern-2 group (stripped) on the stripped text,
else the stripped text. -/
def strip_markdown_code_fences (text : List Char) : List Char :=
  match searchFence text with
  | some body => pyStrip body
  | none =>
    match fallbackBody (pyStrip text) with
    | some body => pyStrip body
    | none => pyStrip text

/-! ## Orchestrator (`LangGraphTestAgent` in `tresto/ai/agent/graph.py`) -/

/-- The routing decisions returned by `_decide_next` (the `Decision` literal
type of `tresto/ai/agent/state.py`). -/
inductive GDecision where
  | modify_code
  | run_test
  | inspect_site
  | ask_user
  | finish
deriving DecidableEq, Repr

/-- The fields of the last test run consulted by the router. -/
structure GRunResult where
  success : Bool
deriving DecidableEq, Repr

/-- The `TestAgentState` TypedDict fields consulted by the orchestrator.
The dict is `total=False`, so every key may be absent (`none`). -/
structure GState where
  iterations : Option Nat
  maxIterations : Option Nat
  currentTestCode : Option String
  runResult : Option GRunResult
  inspectionNotes : Option String
deriving DecidableEq, Repr

/-- Python truthiness of `state.get("inspection_notes")`: absent key and
empty string are both falsy. -/
def pyFalsyStr : Option String → Bool
  | none => true
  | some s => s = ""

/-- `_decide_next`: iteration cap first, then create-code, then run-test,
then the failure policy, else finish. -/
def decideNext (s : GState) : GDecision :=
  let it := s.iterations.getD 0
  let maxIt := s.maxIterations.getD 5
  if maxIt ≤ it then .finish
  else if s.currentTestCode = none then .modify_code
  else
    match s.runResult with
    | none => .run_test
    | some run =>
      if run.success = false then
        if pyFalsyStr s.inspectionNotes then .inspect_site
        else if it % 2 = 1 then .ask_user else .modify_code
      else .finish

/-- One compiled-graph invocation (`self._app.ainvoke(state)`): route with
`_decide_next` at the conditional entry point; a `finish` decision goes to
`END`, any other decision dispatches the matching handler node and routes
again (the conditional edges added after every node). Returns the final
state together with the number of handler dispatches; handler effects (LLM,
browser, subprocess) are a parameter, and fuel bounds the recursion. -/
def graphInvoke (handler : GDecision → GState → GState) :
    Nat → GState → Option (GState × Nat)
  | 0, _ => none
  | fuel + 1, s =>
    let d := decideNext s
    if d = .finish then some (s, 0)
    else
      match graphInvoke handler fuel (handler d s) with
      | some (s1, n) => some (s1, n + 1)
      | none => none

/-- The `while True` loop of `LangGraphTestAgent.run`: invoke the graph,
increment `iterations` by one, and stop once `_decide_next` returns
`finish`. Accumulates the total number of handler dispatches. -/
def runLoop (handler : GDecision → GState → GState) (ifuel : Nat) :
    Nat → GState → Nat → Option (GState × Nat)
  | 0, _, _ => none
  | ofuel + 1, s, acc =>
    match graphInvoke handler ifuel s with
    | none => none
    | some (s1, n) =>
      let s2 : GState := { s1 with iterations := some (s1.iterations.getD 0 + 1) }
      if decideNext s2 = .finish then some (s2, acc + n)
      else runLoop handler ifuel ofuel s2 (acc + n)

/-- The initial state built by `run`: `iterations = 0`, the supplied
`max_iterations`, and no `current_test_code` / `run_result` /
`inspection_notes` keys. -/
def initialGState (maxIt : Nat) : GState :=
  ⟨some 0, some maxIt, none, none, none⟩

/-- `LangGraphTestAgent.run`, from the initial state. -/
def runG (handler : GDecision → GState → GState) (maxIt ifuel ofuel : Nat) :
    Option (GState × Nat) :=
  runLoop handler ifuel ofuel (initialGState maxIt) 0

/-- Handler effects used in concrete runs: `generate_or_update_code` always
stores the generated code; `run_test` stores a run result (here the test
passes); the other handlers leave the modelled fields unchanged. -/
def demoHandler : GDecision → GState → GState
  | .modify_code, s => { s with currentTestCode := some "code" }
  | .run_test, s => { s with runResult := some ⟨true⟩ }
  | _, s => s

/-! ## Decision availability
(`tool_decide_next_action` in `tresto/ai/agent/tools/deside_next_action.py`,
over the `Decision` StrEnum of `tresto/ai/agent/state/__init__.py`, in which
`INSPECT_SITE` is commented out). -/

/-- The `Decision` StrEnum members. -/
inductive Decision where
  | record_user_input
  | deside_next_action
  | ask_user
  | run_test
  | modify_code
  | finish
deriving DecidableEq, Repr

/-- `set(Decision)` as a list. -/
def allDecisions : List Decision :=
  [.record_user_input, .deside_next_action, .ask_user, .run_test,
    .modify_code, .finish]

/-- `available_actions` as computed by `tool_decide_next_action`:
`set(Decision) - {Decision.DESIDE_NEXT_ACTION}`, and then — when
`current_recording_code is not None` — `available_actions.add(
Decision.RECORD_USER_INPUT)` (the source `add`s here, not `discard`s). -/
def availableActions (hasRecordingCode : Bool) : List Decision :=
  let base := allDecisions.filter (fun d => !(d = Decision.deside_next_action))
  if hasRecordingCode then
    if base.contains .record_user_input then base
    else base ++ [.record_user_input]
  else base

/-! ## Test execution (`run_test` in `tresto/core/test/run.py`).
`extract_test_function`, `TestRunResult` and `screenshot_page` live in
modules not under `src/`; their outcomes are explicit parameters, and
`TestRunResult` is reconstructed from the dataclass in
`tresto/core/test/__init__.py`. A raised Python exception is the `.error`
branch of `Except`. -/

/-- `TestRunResult` (success flag, duration, optional traceback, captured
output, optional parsed document and screenshot). -/
structure TestRunResult where
  success : Bool
  duration_s : ℚ
  traceback : Option String
  stdout : Option String
  stderr : Option String
  soup : Option String
  screenshot : Option Nat
deriving DecidableEq, Repr

/-- Outcome of `extract_test_function(test_path)`: a test function, a raised
`BaseTestExtractionError` (the family `run_test` catches), or some other
raised exception (infrastructure failure, not caught). -/
inductive ExtractOutcome where
  | ok
  | extractionError (msg : String)
  | otherError (msg : String)
deriving DecidableEq, Repr

/-- Outcome of the browser setup (`async_playwright` / `chromium.launch`). -/
inductive LaunchOutcome where
  | ok
  | fail (msg : String)
deriving DecidableEq, Repr

/-- Outcome of `await test_func(page)`. -/
inductive TestOutcome where
  | pass
  | fail (tb : String)
deriving DecidableEq, Repr

/-- Outcome of the artifact capture in the `finally` block: both captured,
the document captured but the screenshot raising, or `page.content()`
raising. -/
inductive ArtifactOutcome where
  | ok (html : String) (img : Nat)
  | failAfterHtml (html : String) (msg : String)
  | fail (msg : String)
deriving DecidableEq, Repr

/-- The external collaborator outcomes one `run_test` call observes. -/
structure RunTestWorld where
  extract : ExtractOutcome
  launch : LaunchOutcome
  test : TestOutcome
  artifacts : ArtifactOutcome
  dur : ℚ
  out : String
  err : String
deriving DecidableEq, Repr

/-- `run_test`: extraction errors and every execution failure are returned
as a `TestRunResult`; only a non-extraction exception raised while
extracting propagates. -/
def run_test (w : RunTestWorld) : Except String TestRunResult :=
  match w.extract with
  | .otherError m => .error m
  | .extractionError m => .ok ⟨false, 0, some m, none, none, none, none⟩
  | .ok =>
    match w.launch with
    | .fail m => .ok ⟨false, w.dur, some m, some w.out, some w.err, none, none⟩
    | .ok =>
      match w.test with
      | .pass =>
        match w.artifacts with
        | .ok html img =>
            .ok ⟨true, w.dur, none, some w.out, some w.err, some html, some img⟩
        | .failAfterHtml html m =>
            .ok ⟨false, w.dur, some m, some w.out, some w.err, some html, none⟩
        | .fail m =>
            .ok ⟨false, w.dur, some m, some w.out, some w.err, none, none⟩
      | .fail tb =>
        match w.artifacts with
        | .ok html img =>
            .ok ⟨false, w.dur, some tb, some w.out, some w.err, some html,
              some img⟩
        | .failAfterHtml html _m =>
            .ok ⟨false, w.dur, some tb, some w.out, some w.err, some html, none⟩
        | .fail _m =>
            .ok ⟨false, w.dur, some tb, some w.out, some w.err, none, none⟩

/-! ## DOM exploration engine
(`tresto/ai/agent/tools/html_inspect/execution.py`). The parsed document is
a tree of elements and text nodes; `select_one` resolves simple selectors
(tag, id-hash, class-dot, and descendant chains of these) to the first match
in document order, and an unsupported selector resolves to nothing (the
source catches any selector exception and returns `None`). Output strings
follow the source, except that the decorative single quotes around echoed
selectors and commands are omitted. -/

/-- A parsed document node (`BeautifulSoup` element or `NavigableString`). -/
inductive HNode where
  | elem (tag : String) (attrs : List (String × String)) (children : List HNode)
  | text (s : String)
deriving Repr

/-- Python `str.strip()` on `String`. -/
def pyStripS (s : String) : String := String.mk (pyStrip s.data)

/-- The fixed content size limits of the exploration engine. -/
def MAX_TEXT_LENGTH : Nat := 200

def MAX_FULL_TEXT_LENGTH : Nat := 300

def MAX_ATTR_VALUE_LENGTH : Nat := 100

def MAX_ATTRS_TOTAL_LENGTH : Nat := 200

def MAX_VIEW_LENGTH : Nat := 2000

def MAX_SUGGESTIONS_LENGTH : Nat := 500

/-- `_trim_content`: cut to `maxLength` characters and append an ellipsis
when something was cut. -/
def trimContent (content : String) (maxLength : Nat) : String :=
  if content.length ≤ maxLength then content
  else String.mk (content.data.take maxLength) ++ "..."

/-- A child counts for rendering if it is an element or a text node with
non-whitespace content. -/
def isRenderable : HNode → Bool
  | .elem _ _ _ => true
  | .text s => !(pyStripS s == "")

/-- An element child (`hasattr(child, "name") and child.name`). -/
def isElem : HNode → Bool
  | .elem _ _ _ => true
  | .text _ => false

/-- Indentation of `"  " * depth`. -/
def indentStr (depth : Nat) : String := String.mk (List.replicate (2 * depth) ' ')

/-- Attribute serialisation of `_format_element_collapsed`: each value cut to
100 characters, the joined result cut to 200. -/
def attrsDisplay (attrs : List (String × String)) : String :=
  let parts := attrs.map (fun p =>
    p.1 ++ "=\"" ++ trimContent p.2 MAX_ATTR_VALUE_LENGTH ++ "\"")
  let combined := String.intercalate " " parts
  let combined := if combined.length > MAX_ATTRS_TOTAL_LENGTH then
      String.mk (combined.data.take MAX_ATTRS_TOTAL_LENGTH) ++ "..."
    else combined
  if combined == "" then "" else " " ++ combined

mutual

/-- `_format_element_collapsed`: text nodes are quoted and cut to 200
characters; elements past the depth limit with children collapse to a
child-count line; otherwise the element expands its renderable children. -/
def fmtNode : HNode → Nat → Nat → String
  | .text s, currentDepth, _ =>
    let t := pyStripS s
    if t == "" then ""
    else indentStr currentDepth ++ "📝 \"" ++ trimContent t MAX_TEXT_LENGTH ++ "\"\n"
  | .elem tag attrs children, currentDepth, maxDepth =>
    let kids := children.filter isRenderable
    if maxDepth ≤ currentDepth && kids.length != 0 then
      indentStr currentDepth ++ "📁 <" ++ tag ++ attrsDisplay attrs ++ "> [" ++
        toString kids.length ++ " children]\n"
    else
      indentStr currentDepth ++ "📂 <" ++ tag ++ attrsDisplay attrs ++ ">\n" ++
        fmtKids children (currentDepth + 1) maxDepth

/-- Concatenated rendering of a child list. Iterating the unfiltered list is
equivalent to iterating the renderable children of the source loop, because
a skipped child (whitespace-only text) renders as the empty string. -/
def fmtKids : List HNode → Nat → Nat → String
  | [], _, _ => ""
  | c :: cs, currentDepth, maxDepth =>
    fmtNode c currentDepth maxDepth ++ fmtKids cs currentDepth maxDepth

end

/-- A simple CSS selector token. -/
inductive SimpleSel where
  | tag (t : String)
  | idSel (i : String)
  | clsSel (c : String)
deriving DecidableEq, Repr

/-- Parse one selector token: `#id`, `.class`, else a tag name. -/
def parseSimpleSel (tok : String) : Option SimpleSel :=
  match tok.data with
  | [] => none
  | '#' :: rest => if rest.isEmpty then none else some (.idSel (String.mk rest))
  | '.' :: rest => if rest.isEmpty then none else some (.clsSel (String.mk rest))
  | _ => some (.tag tok)

/-- Attribute lookup on an element. -/
def getAttr (attrs : List (String × String)) (k : String) : Option String :=
  (attrs.find? (fun p => p.1 == k)).map Prod.snd

/-- Does an element node match one simple selector? Class values are
whitespace-separated word lists. -/
def nodeMatches (sel : SimpleSel) : HNode → Bool
  | .text _ => false
  | .elem tag attrs _ =>
    match sel with
    | .tag t => tag == t
    | .idSel i => getAttr attrs "id" == some i
    | .clsSel c =>
      match getAttr attrs "class" with
      | some v => (v.splitOn " ").contains c
      | none => false

mutual

/-- First node of the subtree rooted here matching a descendant chain of
simple selectors, in document (pre-)order.  -/
def selMatchNode (sels : List SimpleSel) (n : HNode) : Option HNode :=
  match n with
  | .text _ => none
  | .elem tag attrs children =>
    match sels with
    | [] => none
    | s :: rest =>
      let here : Option HNode :=
        if nodeMatches s (.elem tag attrs children) then
          match rest with
          | [] => some (.elem tag attrs children)
          | _ => selMatchList rest children
        else none
      match here with
      | some r => some r
      | none => selMatchList (s :: rest) children

/-- First match over a list of sibling subtrees. -/
def selMatchList (sels : List SimpleSel) : List HNode → Option HNode
  | [] => none
  | c :: cs =>
    match selMatchNode sels c with
    | some r => some r
    | none => selMatchList sels cs

end

/-- Whitespace word split of a selector (descendant combinator). -/
def selWords : List Char → List Char → List String
  | [], cur => if cur.isEmpty then [] else [String.mk cur]
  | c :: rest, cur =>
    if c = ' ' then
      (if cur.isEmpty then [] else [String.mk cur]) ++ selWords rest []
    else selWords rest (cur ++ [c])

/-- `_find_element_by_css_selector`: split the selector into descendant
parts; any unsupported part makes the whole lookup return `None` (the
source catches the exception from `select_one`). -/
def findElementByCss (doc : HNode) (selector : String) : Option HNode :=
  match (selWords selector.data []).mapM parseSimpleSel with
  | none => none
  | some [] => none
  | some sels => selMatchNode sels doc

mutual

/-- `soup.find(tag)`: first element with the given tag, document order. -/
def findTagNode (t : String) : HNode → Option HNode
  | .text _ => none
  | .elem tag attrs children =>
    if tag == t then some (.elem tag attrs children)
    else findTagList t children

def findTagList (t : String) : List HNode → Option HNode
  | [] => none
  | c :: cs =>
    match findTagNode t c with
    | some r => some r
    | none => findTagList t cs

end

mutual

/-- `soup.find_all(attrs={"id": True})`: every element carrying an `id`
attribute, document order. -/
def findAllWithId : HNode → List HNode
  | .text _ => []
  | .elem tag attrs children =>
    (if (getAttr attrs "id").isSome then [HNode.elem tag attrs children] else [])
      ++ findAllWithIdList children

def findAllWithIdList : List HNode → List HNode
  | [] => []
  | c :: cs => findAllWithId c ++ findAllWithIdList cs

end

mutual

/-- `element.get_text(strip=True)`: stripped text of every descendant
string, concatenated. -/
def collectText : HNode → String
  | .text s => pyStripS s
  | .elem _ _ children => collectTextList children

def collectTextList : List HNode → String
  | [] => ""
  | c :: cs => collectText c ++ collectTextList cs

end

/-- The parsed command language of `_HtmlExplorationParser`. -/
inductive HtmlCmd where
  | show (depth : Int)
  | expand (selector : String) (depth : Int)
  | text (selector : String)
  | attrs (selector : String)
  | finish
  | help (sub : Option String)
deriving DecidableEq, Repr

/-- `shlex.split` as a state machine: double quotes group words, a missing
closing quote raises `ValueError` (caught by `parse_command`). -/
def shlexRun : List Char → Bool → List Char → List String → Except String (List String)
  | [], inQuote, cur, acc =>
    if inQuote then .error "No closing quotation"
    else .ok (acc ++ if cur.isEmpty then [] else [String.mk cur])
  | c :: rest, inQuote, cur, acc =>
    if inQuote then
      if c = '"' then shlexRun rest false cur acc
      else shlexRun rest true (cur ++ [c]) acc
    else if c = '"' then shlexRun rest true cur acc
    else if c = ' ' then
      shlexRun rest false [] (acc ++ if cur.isEmpty then [] else [String.mk cur])
    else shlexRun rest false (cur ++ [c]) acc

/-- Tokenise one command line. -/
def shlexSplitS (s : String) : Except String (List String) :=
  shlexRun s.data false [] []

/-- A decimal integer as argparse `type=int` accepts it. -/
def parseIntTok (t : String) : Option Int :=
  match t.data with
  | [] => none
  | '-' :: ds =>
    if !ds.isEmpty && ds.all Char.isDigit then
      some (-(ds.foldl (fun a c => a * 10 + (c.toNat - 48)) 0 : Nat))
    else none
  | ds =>
    if ds.all Char.isDigit then
      some ((ds.foldl (fun a c => a * 10 + (c.toNat - 48)) 0 : Nat))
    else none

/-- Pull every `--depth N` option pair out of an argument list (the last
occurrence wins, as in argparse); a malformed value is a parse error. -/
def parseDepthArgs (dflt : Int) : List String → Except String (List String × Int)
  | [] => .ok ([], dflt)
  | t :: rest =>
    if t == "--depth" then
      match rest with
      | [] => .error "argument --depth: expected one argument"
      | n :: rest2 =>
        match parseIntTok n with
        | some d => do
          let (r, d2) ← parseDepthArgs d rest2
          .ok (r, d2)
        | none => .error ("argument --depth: invalid int value: " ++ n)
    else do
      let (r, d) ← parseDepthArgs dflt rest
      .ok (t :: r, d)

/-- `parse_command` over the argparse configuration of
`_HtmlExplorationParser`: subcommands `show`/`view`/`start` (depth option,
default 2), `expand` (selector words, depth option, default 3), `text` and
`attrs` (selector words), `finish`/`done`/`complete`, `help`/`?`. Every
argparse/shlex failure is returned as an error message, never raised. -/
def parse_command (s : String) : Except String HtmlCmd :=
  match shlexSplitS s with
  | .error e => .error ("Command parsing error: " ++ e)
  | .ok [] => .error "the following arguments are required: command"
  | .ok (cmd :: args) =>
    if cmd == "show" || cmd == "view" || cmd == "start" then
      match parseDepthArgs 2 args with
      | .error e => .error e
      | .ok (r, d) =>
        if r.isEmpty then .ok (.show d)
        else .error ("unrecognized arguments: " ++ String.intercalate " " r)
    else if cmd == "expand" then
      match parseDepthArgs 3 args with
      | .error e => .error e
      | .ok (r, d) =>
        if r.isEmpty then .error "the following arguments are required: selector"
        else .ok (.expand (String.intercalate " " r) d)
    else if cmd == "text" then
      if args.isEmpty then .error "the following arguments are required: selector"
      else .ok (.text (String.intercalate " " args))
    else if cmd == "attrs" then
      if args.isEmpty then .error "the following arguments are required: selector"
      else .ok (.attrs (String.intercalate " " args))
    else if cmd == "finish" || cmd == "done" || cmd == "complete" then .ok .finish
    else if cmd == "help" || cmd == "?" then
      match args with
      | [] => .ok (.help none)
      | [sub] => .ok (.help (some sub))
      | _ => .error "unrecognized arguments"
    else .error ("argument command: invalid choice: " ++ cmd)

/-- `_get_navigation_suggestions`: ranked alternatives for a selector that
matched nothing — body children by id, class and tag, a first common
element, elements with ids — capped at six lines and 500 characters. -/
def navSuggestions (doc : HNode) (_failedSelector : String) : String :=
  let bodyPart : List String :=
    match findTagNode "body" doc with
    | some (.elem _ _ children) =>
      let elemKids := children.filter isElem
      if elemKids.isEmpty then []
      else
        "• expand body (to see body contents)" ::
          (elemKids.take 3).flatMap (fun c =>
            match c with
            | .elem tag attrs _ =>
              (match getAttr attrs "id" with
               | some i => ["• expand #" ++ i ++ " (by ID)"]
               | none => []) ++
              (match getAttr attrs "class" with
               | some v =>
                 ["• expand ." ++ ((v.splitOn " ").headD v) ++ " (by class)"]
               | none => []) ++
              ["• expand " ++ tag ++ " (first " ++ tag ++ " element)"]
            | .text _ => [])
    | _ => []
  let commonPart : List String :=
    match ["form", "input", "button", "div", "span", "a"].find?
        (fun t => (findTagNode t doc).isSome) with
    | some t => ["• expand " ++ t ++ " (first " ++ t ++ " found)"]
    | none => []
  let idPart : List String :=
    ((findAllWithId doc).take 2).flatMap (fun e =>
      match e with
      | .elem _ attrs _ =>
        match getAttr attrs "id" with
        | some i => ["• expand #" ++ i ++ " (by ID)"]
        | none => []
      | .text _ => [])
  let all := bodyPart ++ commonPart ++ idPart
  let chosen := if all.isEmpty then ["• Try expand body or show to see structure"]
    else all.take 6
  trimContent (String.intercalate "\n" chosen) MAX_SUGGESTIONS_LENGTH

/-- `_execute_show_command`. -/
def execute_show_command (doc : HNode) (depth : Int) : String :=
  if depth < 1 ∨ depth > 5 then "❌ Depth must be between 1 and 5"
  else
    "📄 HTML Structure (" ++ toString depth ++ " levels):\n\n" ++
      trimContent (fmtNode doc 0 depth.toNat) MAX_VIEW_LENGTH ++
      "\n💡 To explore deeper, try expand body or expand html first"

/-- `_execute_expand_command`. -/
def execute_expand_command (doc : HNode) (selector : String) (depth : Int) :
    String :=
  if depth < 1 ∨ depth > 5 then "❌ Depth must be between 1 and 5"
  else
    match findElementByCss doc selector with
    | none =>
      "❌ Could not find element with selector: " ++ selector ++
        "\n\n💡 Try these selectors instead:\n" ++ navSuggestions doc selector
    | some el =>
      "📂 Expanded view of " ++ selector ++ " (" ++ toString depth ++
        " levels):\n\n" ++ trimContent (fmtNode el 0 depth.toNat) MAX_VIEW_LENGTH ++
        "\n💡 Use more specific selectors or try exploring children shown above"

/-- `_execute_text_command`. -/
def execute_text_command (doc : HNode) (selector : String) : String :=
  match findElementByCss doc selector with
  | none =>
    "❌ Could not find element with selector: " ++ selector ++
      "\n\n💡 Try these selectors instead:\n" ++ navSuggestions doc selector
  | some el =>
    let trimmed := trimContent (collectText el) MAX_FULL_TEXT_LENGTH
    if trimmed == "" then "❌ Element " ++ selector ++ " has no text content"
    else "📝 Text content of " ++ selector ++ ":\n" ++ trimmed

/-- `_execute_attrs_command`. -/
def execute_attrs_command (doc : HNode) (selector : String) : String :=
  match findElementByCss doc selector with
  | none =>
    "❌ Could not find element with selector: " ++ selector ++
      "\n\n💡 Try these selectors instead:\n" ++ navSuggestions doc selector
  | some el =>
    match el with
    | .elem _ attrs _ =>
      if attrs.isEmpty then "🏷️ Element " ++ selector ++ " has no attributes"
      else
        let lines := attrs.map (fun p =>
          "  " ++ p.1 ++ ": " ++ trimContent p.2 MAX_ATTR_VALUE_LENGTH)
        "🏷️ Attributes of " ++ selector ++ ":\n" ++
          trimContent (String.intercalate "\n" lines) MAX_VIEW_LENGTH
    | .text _ => "🏷️ Element " ++ selector ++ " has no attributes"

/-- `_execute_help_command` (topic texts abbreviated). -/
def execute_help_command (sub : Option String) : String :=
  match sub with
  | some topic =>
    if topic == "show" || topic == "expand" || topic == "text" ||
        topic == "attrs" then
      "Usage help for the " ++ topic ++ " command"
    else "❌ No help available for " ++ topic ++ "\nUse help to see all commands."
  | none => "🔍 HTML Exploration Commands: show, expand, text, attrs, finish, help"

/-- The command clean-up of `execute_html_exploration`: strip, and drop a
leading case-insensitive `command:` tag. -/
def cleanCommand (command : String) : String :=
  let c1 := pyStripS command
  if lcMatchesAt "command:" c1.data then pyStripS (String.mk (c1.data.drop 8))
  else c1

/-- `execute_html_exploration`: clean the command, parse, dispatch. A parse
failure becomes an error string with a feedback hint; the `finish` sentinel
is `None`; nothing raises (`.error` is never produced). -/
def execute_html_exploration (command : String) (doc : HNode) :
    Except String (Option String) :=
  match parse_command (cleanCommand command) with
  | .error e =>
    .ok (some ("❌ Command parsing error: " ++ e ++
      "\n\n💡 Use help to see available commands and syntax or finish to finish the exploration."))
  | .ok c =>
    .ok (match c with
      | .show d => some (execute_show_command doc d)
      | .expand sel d => some (execute_expand_command doc sel d)
      | .text sel => some (execute_text_command doc sel)
      | .attrs sel => some (execute_attrs_command doc sel)
      | .finish => none
      | .help sub => some (execute_help_command sub))

/-- A small concrete document for witnesses. -/
def demoDoc : HNode :=
  .elem "html" [] [.elem "body" []
    [.elem "div" [("id", "main")] [.text "hello"]]]

/-! ## Conversation-context scratch lifecycle
(`inspect_html_tool` in `tresto/ai/agent/tools/html_inspect/__init__.py` and
`playwright_iterate_cycle` in
`tresto/ai/agent/tools/playwright_iterate/__init__.py`). The state fields
`messages` / `local_messages` and the `temporary_messages` context manager
belong to a `TestAgentState` version whose defining module is not under
`src/`; `temporary_messages` is modelled from the spec. Messages are
abstracted to strings; the LLM collaborator is a script of round outcomes. -/

/-- The durable and scratch message sequences of the conversation context. -/
structure ConvState where
  messages : List String
  localMessages : List String
deriving DecidableEq, Repr

/-- One LLM round inside the inspection loop: the external call raises
(an infrastructure failure that propagates), or streams a command. -/
inductive LlmOutcome where
  | raise
  | reply (cmd : String)
deriving DecidableEq, Repr

/-- How a sub-task run ends: normal completion, a propagated exception
(carrying the state at that moment), or still looping when the script runs
out. -/
inductive SubTaskResult where
  | normal (st : ConvState)
  | exc (st : ConvState)
  | pending (st : ConvState)
deriving DecidableEq, Repr

/-- Substring occurrence test over character lists. -/
def hasInfix (needle : List Char) : List Char → Bool
  | [] => needle.isPrefixOf []
  | c :: rest => needle.isPrefixOf (c :: rest) || hasInfix needle rest

/-- `"EXPLORATION_FINISHED" in result` for a string result. -/
def containsFinished (res : String) : Bool :=
  hasInfix "EXPLORATION_FINISHED".data res.data

/-- The interactive loop of `inspect_html_tool`. Each round asks the LLM for
a command (a raised LLM exception propagates with the state as is — there is
no `try`/`finally` around the loop); the command executes inside a `try`
whose `except` appends one error message and continues — this is also the
path taken when the `finish` sentinel `None` reaches the
`"EXPLORATION_FINISHED" in result` containment check and display code, which
raises on `None`. A result containing the sentinel breaks the loop, after
which the local messages are moved to the durable sequence and cleared. -/
def inspectHtmlLoop (doc : HNode) : List LlmOutcome → ConvState → SubTaskResult
  | [], st => .pending st
  | o :: rest, st =>
    match o with
    | .raise => .exc st
    | .reply cmd =>
      match execute_html_exploration cmd doc with
      | .ok (some res) =>
        let st1 : ConvState := { st with localMessages := st.localMessages ++
          ["Command: " ++ cmd, "HTML exploration result:\n" ++ res] }
        if containsFinished res then
          .normal ⟨st1.messages ++ st1.localMessages, []⟩
        else inspectHtmlLoop doc rest st1
      | .ok none =>
        inspectHtmlLoop doc rest { st with localMessages :=
          st.localMessages ++ ["Error executing HTML command"] }
      | .error e =>
        inspectHtmlLoop doc rest { st with localMessages :=
          st.localMessages ++ ["Error executing HTML command: " ++ e] }

/-- Modelled from the spec: the `temporary_messages` context manager of
`TestAgentState` (its defining module is missing from `src/`; the spec says
the scratch sequence "is guaranteed cleared when the sub-task exits,
regardless of how it exits (normal completion or error)"). -/
def temporary_messages (body : ConvState → Except ConvState ConvState)
    (st : ConvState) : Except ConvState ConvState :=
  match body st with
  | .ok st1 => .ok { st1 with localMessages := [] }
  | .error st1 => .error { st1 with localMessages := [] }

/-- `playwright_iterate_cycle`: the iteration loop and report generation
(the `body` parameter) run inside `temporary_messages`; afterwards two
durable messages are appended. An exception propagates. -/
def playwright_iterate_cycle (body : ConvState → Except ConvState ConvState)
    (report : String) (st : ConvState) : Except ConvState ConvState :=
  match temporary_messages body st with
  | .ok st1 => .ok { st1 with messages := st1.messages ++
      ["Model investigated the website using playwright automation and generated the following report.",
        report] }
  | .error st1 => .error st1

/-- The scratch content left behind by the exceptional exit in the C6
counterexample run. -/
def scratchCexState : ConvState :=
  ⟨["sys"], ["Command: bogus",
    "HTML exploration result:\n❌ Command parsing error: argument command: invalid choice: bogus\n\n💡 Use help to see available commands and syntax or finish to finish the exploration."]⟩

/-- A document whose body text contains the finish sentinel, driving the
inspection loop to its normal exit. -/
def sentinelDoc : HNode :=
  .elem "body" [("id", "x")] [.text "EXPLORATION_FINISHED"]

end Tresto

namespace Tresto

theorem keyLtb_eq_false_iff {a b : Nat × Nat} :
    keyLtb a b = false ↔ (b.1 < a.1 ∨ (b.1 = a.1 ∧ b.2 ≤ a.2)) := by
  simp only [keyLtb, Bool.or_eq_false_iff, decide_eq_false_iff_not,
    Bool.and_eq_false_iff]
  omega

theorem foldlMin_mem (f : Int → Nat × Nat) (l : List Int) :
    ∀ a, l.foldl (fun best x => if keyLtb (f x) (f best) then x else best) a ∈ a :: l := by
  induction l with
  | nil => intro a; simp
  | cons y ys ih =>
    intro a
    simp only [List.foldl_cons]
    have h := ih (if keyLtb (f y) (f a) then y else a)
    by_cases hc : keyLtb (f y) (f a) = true
    · simp only [hc, if_true] at h ⊢
      simp only [List.mem_cons] at h ⊢
      tauto
    · simp only [Bool.not_eq_true] at hc
      simp only [hc, Bool.false_eq_true, if_false] at h ⊢
      simp only [List.mem_cons] at h ⊢
      tauto

theorem foldlMin_min (f : Int → Nat × Nat) (l : List Int) :
    ∀ a x, x ∈ a :: l →
      keyLtb (f x)
        (f (l.foldl (fun best x => if keyLtb (f x) (f best) then x else best) a)) = false := by
  induction l with
  | nil =>
    intro a x hx
    simp only [List.mem_cons, List.not_mem_nil, or_false] at hx
    subst hx
    simp only [List.foldl_nil]
    rw [keyLtb_eq_false_iff]
    omega
  | cons y ys ih =>
    intro a x hx
    simp only [List.foldl_cons]
    by_cases hc : keyLtb (f y) (f a) = true
    · simp only [hc, if_true]
      rcases List.mem_cons.mp hx with hx1 | hx2
      · -- x = a: result ≤ y < a
        subst hx1
        have hres := ih y y (List.mem_cons_self y ys)
        rw [keyLtb_eq_false_iff] at hres ⊢
        simp only [keyLtb, Bool.or_eq_true, decide_eq_true_eq, Bool.and_eq_true] at hc
        omega
      · rcases List.mem_cons.mp hx2 with hx3 | hx4
        · exact ih y x (by simp [hx3])
        · exact ih y x (List.mem_cons.mpr (Or.inr hx4))
    · simp only [Bool.not_eq_true] at hc
      simp only [hc, Bool.false_eq_true, if_false]
      rcases List.mem_cons.mp hx with hx1 | hx2
      · exact ih a x (by simp [hx1])
      · rcases List.mem_cons.mp hx2 with hx3 | hx4
        · -- x = y: result ≤ a and y not below a
          subst hx3
          have hres := ih a a (List.mem_cons_self a ys)
          rw [keyLtb_eq_false_iff] at hres hc ⊢
          omega
        · exact ih a x (List.mem_cons.mpr (Or.inr hx4))

theorem pyMinBy_spec (f : Int → Nat × Nat) (l : List Int) (hne : l ≠ []) :
    ∃ k, pyMinBy f l = some k ∧ k ∈ l ∧ ∀ x ∈ l, keyLtb (f x) (f k) = false := by
  cases l with
  | nil => exact absurd rfl hne
  | cons h t =>
    refine ⟨pyMinByAux f h t, rfl, ?_, ?_⟩
    · exact foldlMin_mem f t h
    · intro x hx
      exact foldlMin_min f t h x hx

/-- The lexicographic minimiser of `snapKey ts` is distance-minimal and, among
equidistant keys, the earliest. -/
theorem snapKey_min_nearest {ts k x : Int}
    (h : keyLtb (snapKey ts x) (snapKey ts k) = false) :
    (k - ts).natAbs ≤ (x - ts).natAbs ∧
      ((x - ts).natAbs = (k - ts).natAbs → k ≤ x) := by
  rw [keyLtb_eq_false_iff] at h
  simp only [snapKey] at h
  split_ifs at h <;> omega

theorem lookup_mem {α : Type} {l : List (Int × α)} {k : Int} {v : α}
    (h : l.lookup k = some v) : (k, v) ∈ l := by
  induction l with
  | nil => simp [List.lookup] at h
  | cons p t ih =>
    simp only [List.lookup] at h
    by_cases hk : k == p.1
    · simp only [hk, if_pos rfl] at h
      cases h
      simp only [List.mem_cons]
      left
      have : k = p.1 := by simpa using hk
      cases p
      simp_all
    · simp only [Bool.not_eq_true] at hk
      simp only [hk] at h
      exact List.mem_cons.mpr (Or.inr (ih h))

theorem lookup_of_mem_nodup {α : Type} {l : List (Int × α)} {k : Int} {v : α}
    (hmem : (k, v) ∈ l) (hnd : (l.map Prod.fst).Nodup) : l.lookup k = some v := by
  induction l with
  | nil => simp at hmem
  | cons p t ih =>
    simp only [List.map_cons, List.nodup_cons] at hnd
    rcases List.mem_cons.mp hmem with h1 | h2
    · subst h1
      simp [List.lookup]
    · have hk : k ≠ p.1 := by
        intro he
        exact hnd.1 (he ▸ (List.mem_map.mpr ⟨(k, v), h2, rfl⟩))
      have h3 : (k == p.1) = false := by simpa using hk
      simp only [List.lookup, h3]
      exact ih h2 hnd.2

theorem lookup_some_of_mem_keys {α : Type} {l : List (Int × α)} {k : Int}
    (h : k ∈ l.map Prod.fst) : ∃ v, l.lookup k = some v := by
  induction l with
  | nil => simp at h
  | cons p t ih =>
    simp only [List.map_cons, List.mem_cons] at h
    by_cases hk : k = p.1
    · exact ⟨p.2, by simp [List.lookup, hk]⟩
    · have h2 : k ∈ t.map Prod.fst := by tauto
      obtain ⟨v, hv⟩ := ih h2
      have h3 : (k == p.1) = false := by simpa using hk
      exact ⟨v, by simp [List.lookup, h3, hv]⟩

theorem nearestLookup_empty {α : Type} (ts : Int) :
    nearestLookup ts ([] : List (Int × α)) = none := rfl

theorem nearestLookup_exact {α : Type} {ts : Int} {v : α} {snaps : List (Int × α)}
    (hmem : (ts, v) ∈ snaps) (hnd : (snaps.map Prod.fst).Nodup) :
    nearestLookup ts snaps = some v := by
  unfold nearestLookup
  rw [lookup_of_mem_nodup hmem hnd]

theorem nearestLookup_nearest {α : Type} {ts : Int} {snaps : List (Int × α)}
    (hne : snaps ≠ []) :
    ∃ k v, nearestLookup ts snaps = some v ∧ (k, v) ∈ snaps ∧
      (∀ x ∈ snaps.map Prod.fst, (k - ts).natAbs ≤ (x - ts).natAbs) ∧
      (∀ x ∈ snaps.map Prod.fst, (x - ts).natAbs = (k - ts).natAbs → k ≤ x) := by
  cases hl : snaps.lookup ts with
  | some v =>
    have heq : nearestLookup ts snaps = some v := by
      simp only [nearestLookup, hl]
    refine ⟨ts, v, heq, lookup_mem hl, ?_, ?_⟩
    · intro x _
      simp
    · intro x _ hx
      have : (x - ts).natAbs = 0 := by simpa using hx
      omega
  | none =>
    have hkeys : snaps.map Prod.fst ≠ [] := by
      intro h
      exact hne (List.map_eq_nil_iff.mp h)
    obtain ⟨k, hk, hkmem, hkmin⟩ := pyMinBy_spec (snapKey ts) (snaps.map Prod.fst) hkeys
    obtain ⟨v, hv⟩ := lookup_some_of_mem_keys hkmem
    have heq : nearestLookup ts snaps = some v := by
      simp only [nearestLookup, hl, hk, hv]
    refine ⟨k, v, heq, lookup_mem hv, ?_, ?_⟩
    · intro x hx
      exact (snapKey_min_nearest (hkmin x hx)).1
    · intro x hx he
      exact (snapKey_min_nearest (hkmin x hx)).2 he

/-- C1: Snapshot Store query contract. For every store: a timestamp outside
`[start, end]` makes `get_html_at`/`get_screenshot_at` raise; `None` means the
end of the range; with no snapshots of the requested kind the query raises;
for an in-range timestamp the query returns the exact match when present,
otherwise the snapshot whose timestamp minimises the absolute delta, with
ties between an earlier and a later snapshot broken toward the earlier one. -/
theorem snapshot_store_query_contract (m : RecordingManager)
    (hndH : (m.sources.htmlSnapshots.map Prod.fst).Nodup)
    (hndS : (m.sources.screenshots.map Prod.fst).Nodup) :
    (∀ t : Int, (t < m.timeRange.1 ∨ t > m.timeRange.2) →
      m.get_html_at (some t) = .error .outOfRange ∧
      m.get_screenshot_at (some t) = .error .outOfRange) ∧
    (m.get_html_at none = m.get_html_at (some m.timeRange.2) ∧
      m.get_screenshot_at none = m.get_screenshot_at (some m.timeRange.2)) ∧
    (m.sources.htmlSnapshots = [] → ∀ t, ∃ e, m.get_html_at t = .error e) ∧
    (m.sources.screenshots = [] → ∀ t, ∃ e, m.get_screenshot_at t = .error e) ∧
    (∀ ts v, m.timeRange.1 ≤ ts → ts ≤ m.timeRange.2 →
      (ts, v) ∈ m.sources.htmlSnapshots → m.get_html_at (some ts) = .ok v) ∧
    (∀ ts v, m.timeRange.1 ≤ ts → ts ≤ m.timeRange.2 →
      (ts, v) ∈ m.sources.screenshots → m.get_screenshot_at (some ts) = .ok v) ∧
    (∀ ts, m.timeRange.1 ≤ ts → ts ≤ m.timeRange.2 → m.sources.htmlSnapshots ≠ [] →
      ∃ k v, m.get_html_at (some ts) = .ok v ∧ (k, v) ∈ m.sources.htmlSnapshots ∧
        (∀ x ∈ m.sources.htmlSnapshots.map Prod.fst,
          (k - ts).natAbs ≤ (x - ts).natAbs) ∧
        (∀ x ∈ m.sources.htmlSnapshots.map Prod.fst,
          (x - ts).natAbs = (k - ts).natAbs → k ≤ x)) ∧
    (∀ ts, m.timeRange.1 ≤ ts → ts ≤ m.timeRange.2 → m.sources.screenshots ≠ [] →
      ∃ k v, m.get_screenshot_at (some ts) = .ok v ∧ (k, v) ∈ m.sources.screenshots ∧
        (∀ x ∈ m.sources.screenshots.map Prod.fst,
          (k - ts).natAbs ≤ (x - ts).natAbs) ∧
        (∀ x ∈ m.sources.screenshots.map Prod.fst,
          (x - ts).natAbs = (k - ts).natAbs → k ≤ x)) := by
  have hval : ∀ ts : Int, m.timeRange.1 ≤ ts → ts ≤ m.timeRange.2 →
      m.validate_timestamp (some ts) = .ok ts := by
    intro ts h1 h2
    simp only [RecordingManager.validate_timestamp]
    rw [if_neg (by omega)]
  refine ⟨?_, ?_, ?_, ?_, ?_, ?_, ?_, ?_⟩
  · intro t ht
    have hv : m.validate_timestamp (some t) = .error .outOfRange := by
      simp only [RecordingManager.validate_timestamp]
      rw [if_pos (by omega)]
    constructor <;>
      simp [RecordingManager.get_html_at, RecordingManager.get_screenshot_at, hv]
  · constructor <;>
      simp [RecordingManager.get_html_at, RecordingManager.get_screenshot_at,
        RecordingManager.validate_timestamp]
  · intro hempty t
    cases hv : m.validate_timestamp t with
    | error e => exact ⟨e, by simp [RecordingManager.get_html_at, hv]⟩
    | ok ts =>
      exact ⟨.noHtml,
        by simp [RecordingManager.get_html_at, hv, hempty, nearestLookup_empty]⟩
  · intro hempty t
    cases hv : m.validate_timestamp t with
    | error e => exact ⟨e, by simp [RecordingManager.get_screenshot_at, hv]⟩
    | ok ts =>
      exact ⟨.noScreenshot,
        by simp [RecordingManager.get_screenshot_at, hv, hempty, nearestLookup_empty]⟩
  · intro ts v h1 h2 hmem
    simp [RecordingManager.get_html_at, hval ts h1 h2,
      nearestLookup_exact hmem hndH]
  · intro ts v h1 h2 hmem
    simp [RecordingManager.get_screenshot_at, hval ts h1 h2,
      nearestLookup_exact hmem hndS]
  · intro ts h1 h2 hne
    obtain ⟨k, v, hnl, hmem, hmin, htie⟩ := @nearestLookup_nearest _ ts _ hne
    exact ⟨k, v, by simp [RecordingManager.get_html_at, hval ts h1 h2, hnl],
      hmem, hmin, htie⟩
  · intro ts h1 h2 hne
    obtain ⟨k, v, hnl, hmem, hmin, htie⟩ := @nearestLookup_nearest _ ts _ hne
    exact ⟨k, v, by simp [RecordingManager.get_screenshot_at, hval ts h1 h2, hnl],
      hmem, hmin, htie⟩

theorem foldl_min_mem_q (l : List ℚ) : ∀ a : ℚ, l.foldl min a ∈ a :: l := by
  induction l with
  | nil => intro a; simp
  | cons y ys ih =>
    intro a
    simp only [List.foldl_cons]
    have h := ih (min a y)
    rcases List.mem_cons.mp h with h1 | h2
    · rw [h1]
      rcases min_choice a y with hm | hm <;> simp [hm]
    · simp [h2]

theorem foldl_min_le_q (l : List ℚ) : ∀ a : ℚ, ∀ x ∈ a :: l, l.foldl min a ≤ x := by
  induction l with
  | nil =>
    intro a x hx
    simp only [List.mem_cons, List.not_mem_nil, or_false] at hx
    simp [hx]
  | cons y ys ih =>
    intro a x hx
    simp only [List.foldl_cons]
    have hmin : ∀ z ∈ (min a y) :: ys, ys.foldl min (min a y) ≤ z := ih (min a y)
    rcases List.mem_cons.mp hx with h1 | h2
    · rw [h1]
      exact le_trans (hmin (min a y) (by simp)) (min_le_left a y)
    · rcases List.mem_cons.mp h2 with h3 | h4
      · rw [h3]
        exact le_trans (hmin (min a y) (by simp)) (min_le_right a y)
      · exact hmin x (by simp [h4])

theorem foldl_max_mem_q (l : List ℚ) : ∀ a : ℚ, l.foldl max a ∈ a :: l := by
  induction l with
  | nil => intro a; simp
  | cons y ys ih =>
    intro a
    simp only [List.foldl_cons]
    have h := ih (max a y)
    rcases List.mem_cons.mp h with h1 | h2
    · rw [h1]
      rcases max_choice a y with hm | hm <;> simp [hm]
    · simp [h2]

theorem foldl_max_ge_q (l : List ℚ) : ∀ a : ℚ, ∀ x ∈ a :: l, x ≤ l.foldl max a := by
  induction l with
  | nil =>
    intro a x hx
    simp only [List.mem_cons, List.not_mem_nil, or_false] at hx
    simp [hx]
  | cons y ys ih =>
    intro a x hx
    simp only [List.foldl_cons]
    have hmax : ∀ z ∈ (max a y) :: ys, z ≤ ys.foldl max (max a y) := ih (max a y)
    rcases List.mem_cons.mp hx with h1 | h2
    · rw [h1]
      exact le_trans (le_max_left a y) (hmax (max a y) (by simp))
    · rcases List.mem_cons.mp h2 with h3 | h4
      · rw [h3]
        exact le_trans (le_max_right a y) (hmax (max a y) (by simp))
      · exact hmax x (by simp [h4])

/-- C7: trace ingestion normalises every event timestamp by numeric
magnitude — above `1e17` nanoseconds, above `1e14` microseconds, above
`1e11` milliseconds, else seconds, all converted to epoch seconds — and
`time_range` is `(min, max)` over the normalised timestamps; in particular
the two-event NDJSON trace with raw timestamps `1000` and `1e12` is
normalised to seconds before the range `(1000, 1e9)` is computed. -/
theorem trace_timestamp_normalization :
    (∀ x : ℚ, 1e17 < x → to_dt x = x / 1e9) ∧
    (∀ x : ℚ, 1e14 < x → x ≤ 1e17 → to_dt x = x / 1e6) ∧
    (∀ x : ℚ, 1e11 < x → x ≤ 1e14 → to_dt x = x / 1e3) ∧
    (∀ x : ℚ, x ≤ 1e11 → to_dt x = x) ∧
    (∀ (now : ℚ) (times : List ℚ), times ≠ [] →
      (time_range now times).1 ∈ times ∧ (time_range now times).2 ∈ times ∧
      ∀ x ∈ times, (time_range now times).1 ≤ x ∧ x ≤ (time_range now times).2) ∧
    ((loadHtmlSnapshots [scenarioBEvent1, scenarioBEvent2]).map Prod.fst =
      [1000, 1000000000] ∧
      ∀ now : ℚ, time_range now
          ((loadHtmlSnapshots [scenarioBEvent1, scenarioBEvent2]).map Prod.fst) =
        (1000, 1000000000)) := by
  have hmap : (loadHtmlSnapshots [scenarioBEvent1, scenarioBEvent2]).map Prod.fst =
      [1000, 1000000000] := by
    have h1 : choose_event_dt scenarioBEvent1 = some 1000 := by
      norm_num [choose_event_dt, scenarioBEvent1, pyOrQ, to_dt]
    have h2 : choose_event_dt scenarioBEvent2 = some 1000000000 := by
      norm_num [choose_event_dt, scenarioBEvent2, pyOrQ, to_dt]
    have hs1 : scenarioBEvent1.snapshotHtml = some "<html>one</html>" := rfl
    have hs2 : scenarioBEvent2.snapshotHtml = some "<html>two</html>" := rfl
    simp only [loadHtmlSnapshots, List.foldl_cons, List.foldl_nil, h1, h2, hs1, hs2]
    norm_num [dictInsert, List.contains, List.elem_eq_mem]
  refine ⟨?_, ?_, ?_, ?_, ?_, hmap, ?_⟩
  · intro x hx
    simp only [to_dt]
    rw [if_pos hx]
  · intro x h1 h2
    simp only [to_dt]
    rw [if_neg (by linarith), if_pos h1]
  · intro x h1 h2
    simp only [to_dt]
    rw [if_neg (by linarith), if_neg (by linarith), if_pos h1]
  · intro x h1
    simp only [to_dt]
    rw [if_neg (by linarith), if_neg (by linarith), if_neg (by linarith)]
  · intro now times hne
    cases times with
    | nil => exact absurd rfl hne
    | cons h t =>
      refine ⟨foldl_min_mem_q t h, foldl_max_mem_q t h, ?_⟩
      intro x hx
      exact ⟨foldl_min_le_q t h x hx, foldl_max_ge_q t h x hx⟩
  · intro now
    rw [hmap]
    simp only [time_range, List.foldl_cons, List.foldl_nil]
    norm_num [min_def, max_def]

/-- Witness for C7: the branch conditions are discharged at the concrete
scenario inputs `1000` (seconds) and `1e12` (milliseconds). -/
theorem trace_timestamp_normalization_witness :
    ((1000 : ℚ) ≤ 1e11 ∧ to_dt 1000 = 1000) ∧
    ((1e11 : ℚ) < 1000000000000 ∧ (1000000000000 : ℚ) ≤ 1e14 ∧
      to_dt 1000000000000 = 1000000000) := by
  refine ⟨⟨by norm_num, ?_⟩, ⟨by norm_num, by norm_num, ?_⟩⟩
  · exact trace_timestamp_normalization.2.2.2.1 1000 (by norm_num)
  · have h := trace_timestamp_normalization.2.2.1 1000000000000 (by norm_num)
      (by norm_num)
    rw [h]
    norm_num

theorem pyStrip_cons_ws {c : Char} (h : isPySpace c = true) (l : List Char) :
    pyStrip (c :: l) = pyStrip l := by
  simp [pyStrip, List.dropWhile_cons, h]

theorem infix_of_infix_cons {s l : List Char} {c : Char}
    (h : ¬ List.IsInfix s (c :: l)) : ¬ List.IsInfix s l :=
  fun hi => h (List.infix_cons hi)

theorem splitOnce_header (v : List Char) :
    ∀ hp : List Char, ¬ List.IsInfix ['\n', '\n'] hp →
      ∃ pre post, splitOnce ['\n', '\n'] (hp ++ ('\n' :: '\n' :: '\n' :: v)) =
          some (pre, post) ∧ pyStrip post = pyStrip v := by
  intro hp
  induction hp with
  | nil =>
    intro _
    refine ⟨[], '\n' :: v, ?_, pyStrip_cons_ws (by decide) v⟩
    simp [splitOnce, List.isPrefixOf]
  | cons c hp' ih =>
    intro hni
    by_cases hpre :
        (['\n', '\n'].isPrefixOf (c :: (hp' ++ ('\n' :: '\n' :: '\n' :: v)))) = true
    · -- the separator matches right here; `hp'` must be empty, else the
      -- header would contain a blank line
      cases hp' with
      | nil =>
        simp only [List.nil_append] at hpre
        have hc : c = '\n' := by
          simp only [List.isPrefixOf, Bool.and_eq_true, beq_iff_eq] at hpre
          exact hpre.1.symm
        subst hc
        refine ⟨[], '\n' :: '\n' :: v, ?_, ?_⟩
        · simp [splitOnce, List.isPrefixOf]
        · rw [pyStrip_cons_ws (by decide), pyStrip_cons_ws (by decide)]
      | cons d hp'' =>
        exfalso
        simp only [List.cons_append, List.isPrefixOf, Bool.and_eq_true,
          beq_iff_eq] at hpre
        rcases hpre with ⟨hc, hd, _⟩
        exact hni ⟨[], hp'', by simp [← hc, ← hd]⟩
    · rw [Bool.not_eq_true] at hpre
      obtain ⟨pre, post, hsp, hstrip⟩ := ih (infix_of_infix_cons hni)
      refine ⟨c :: pre, post, ?_, hstrip⟩
      simp only [List.cons_append, List.append_eq, splitOnce, hpre,
        Bool.false_eq_true, if_false, hsp]

/-- C10: round-trip of the persisted test code. Writing code `v` with the
`current_test_code` setter and reading it back through the getter returns
`v` stripped of leading and trailing whitespace, provided the generated
header (version, test name, test instructions) contains no blank line;
reading a missing file returns `None`. -/
theorem current_test_code_roundtrip (ver name instr v : List Char)
    (h : ¬ List.IsInfix ['\n', '\n'] (trestoHeader ver name instr)) :
    get_current_test_code (some (set_current_test_code ver name instr v)) =
      some (pyStrip v) ∧
    get_current_test_code none = none := by
  refine ⟨?_, rfl⟩
  have hmarker : ("# Generated by Tresto".data.isPrefixOf
      (set_current_test_code ver name instr v)) = true := by
    rw [List.isPrefixOf_iff_prefix]
    refine ⟨" v".data ++ ver ++ "\n# Test name: ".data ++ name ++
      "\n# Test instructions: ".data ++ instr ++ ('\n' :: '\n' :: '\n' :: v), ?_⟩
    simp only [set_current_test_code, trestoHeader, ← List.append_assoc]
    rfl
  obtain ⟨pre, post, hsp, hstrip⟩ := splitOnce_header v _ h
  simp only [get_current_test_code]
  split
  · simp only [splitOnceLast, set_current_test_code, hsp, hstrip]
  · next hcond => exact absurd hmarker hcond

theorem pyStrip_within (l : List Char) : List.IsInfix (pyStrip l) l := by
  have h1 : List.IsSuffix (l.dropWhile isPySpace) l := List.dropWhile_suffix _
  have h2 : List.IsPrefix
      (((l.dropWhile isPySpace).reverse.dropWhile isPySpace).reverse)
      (l.dropWhile isPySpace) := by
    rw [← List.reverse_suffix]
    simp only [List.reverse_reverse]
    exact List.dropWhile_suffix _
  exact h2.isInfix.trans h1.isInfix

theorem searchFence_eq_none :
    ∀ l : List Char, ¬ List.IsInfix ['`', '`', '`'] l → searchFence l = none := by
  intro l
  induction l with
  | nil => intro _; rfl
  | cons c rest ih =>
    intro hni
    have hguard : (['`', '`', '`'].isPrefixOf (c :: rest)) = false := by
      by_contra hb
      rw [Bool.not_eq_false] at hb
      exact hni (List.isPrefixOf_iff_prefix.mp hb).isInfix
    simp only [searchFence, fenceBodyAt, hguard, Bool.false_eq_true, if_false]
    exact ih (infix_of_infix_cons hni)

theorem fallbackBody_eq_none {l : List Char}
    (h : ¬ List.IsInfix ['`', '`', '`'] l) : fallbackBody l = none := by
  have hguard : (['`', '`', '`'].isPrefixOf l) = false := by
    by_contra hb
    rw [Bool.not_eq_false] at hb
    exact h (List.isPrefixOf_iff_prefix.mp hb).isInfix
  simp only [fallbackBody, hguard, Bool.false_eq_true, if_false]

theorem bbb_prefix_through_close :
    ∀ B2 : List Char,
      (['`', '`', '`'].isPrefixOf (B2 ++ ['\n', '`', '`', '`'])) = true →
      (['`', '`', '`'].isPrefixOf B2) = true := by
  intro B2
  match B2 with
  | [] => intro h; simp [List.isPrefixOf] at h
  | [x] => intro h; simp [List.isPrefixOf] at h
  | [x, y] => intro h; simp [List.isPrefixOf] at h
  | x :: y :: z :: r =>
    intro h
    simp only [List.cons_append, List.isPrefixOf, Bool.and_eq_true,
      beq_iff_eq] at h ⊢
    exact h

theorem findClose_append_close :
    ∀ B : List Char, ¬ List.IsInfix ['`', '`', '`'] B →
      findClose (B ++ ['\n', '`', '`', '`']) = some B := by
  intro B
  induction B with
  | nil => intro _; simp [findClose, List.isPrefixOf]
  | cons d B2 ih =>
    intro hni
    have hguard :
        (('\n' :: ['`', '`', '`']).isPrefixOf (d :: (B2 ++ ['\n', '`', '`', '`']))) =
          false := by
      by_contra hb
      rw [Bool.not_eq_false] at hb
      rw [show ('\n' :: ['`', '`', '`']).isPrefixOf (d :: (B2 ++ ['\n', '`', '`', '`'])) =
        (('\n' == d) && (['`', '`', '`'].isPrefixOf (B2 ++ ['\n', '`', '`', '`'])))
        from rfl, Bool.and_eq_true] at hb
      have h2 := bbb_prefix_through_close B2 hb.2
      exact hni (List.infix_cons (List.isPrefixOf_iff_prefix.mp h2).isInfix)
    simp only [List.cons_append, List.append_eq, findClose, hguard,
      Bool.false_eq_true, if_false, ih (infix_of_infix_cons hni)]

theorem nlTail_cons_ne {c : Char} {l : List Char} (h : ¬ c = '\n') :
    nlTail (c :: l) = none := by
  unfold nlTail
  split
  · next r heq =>
    injection heq with h1 _
    exact absurd h1 h
  · rfl

theorem wsSplits_not_ws {c : Char} (h : isPySpace c = false) (l : List Char) :
    wsSplits (c :: l) = [c :: l] := by
  simp [wsSplits, List.takeWhile_cons, h, List.range_succ]

theorem wsSplits_nl_cons {c : Char} (h : isPySpace c = false) (l : List Char) :
    wsSplits ('\n' :: c :: l) = [c :: l, '\n' :: c :: l] := by
  have hnl : isPySpace '\n' = true := by decide
  simp [wsSplits, List.takeWhile_cons, h, hnl, List.range_succ]

/-- C8: markdown-fence stripping in `modify_code` is deterministic. A
response with no fence at all passes through with only `str.strip()` applied
(hence unchanged when already trimmed), and a response wrapped in a single
```python fenced block yields exactly the fenced content with leading and
trailing whitespace trimmed. -/
theorem modify_code_fence_stripping :
    (∀ text : List Char, ¬ List.IsInfix ['`', '`', '`'] text →
      strip_markdown_code_fences text = pyStrip text ∧
      (pyStrip text = text → strip_markdown_code_fences text = text)) ∧
    (∀ (c : Char) (B : List Char), isPySpace c = false →
      ¬ List.IsInfix ['`', '`', '`'] (c :: B) →
      strip_markdown_code_fences
          ("```python\n".data ++ (c :: B) ++ "\n```".data) =
        pyStrip (c :: B)) := by
  constructor
  · intro text hni
    have hs : searchFence text = none := searchFence_eq_none text hni
    have hf : fallbackBody (pyStrip text) = none :=
      fallbackBody_eq_none (fun hi => hni (hi.trans (pyStrip_within text)))
    have h1 : strip_markdown_code_fences text = pyStrip text := by
      simp only [strip_markdown_code_fences, hs, hf]
    exact ⟨h1, fun he => h1.trans he⟩
  · intro c B hc hni
    have hcnl : ¬ c = '\n' := by
      intro he
      rw [he] at hc
      exact absurd hc (by decide)
    have htext : "```python\n".data ++ (c :: B) ++ "\n```".data =
        '`' :: '`' :: '`' :: 'p' :: 'y' :: 't' :: 'h' :: 'o' :: 'n' :: '\n' ::
          (c :: (B ++ ['\n', '`', '`', '`'])) := by
      simp
    rw [htext]
    have hg1 : (wsSplits ('\n' :: (c :: (B ++ ['\n', '`', '`', '`'])))).filterMap
        nlTail = [c :: (B ++ ['\n', '`', '`', '`'])] := by
      rw [wsSplits_nl_cons hc]
      have hnl1 : nlTail (c :: (B ++ ['\n', '`', '`', '`'])) = none :=
        nlTail_cons_ne hcnl
      have hnl2 : nlTail ('\n' :: (c :: (B ++ ['\n', '`', '`', '`']))) =
          some (c :: (B ++ ['\n', '`', '`', '`'])) := rfl
      simp only [List.filterMap_cons, hnl1, hnl2, List.filterMap_nil]
    have hheader : ∃ junk, headerSplits
        ('p' :: 'y' :: 't' :: 'h' :: 'o' :: 'n' :: '\n' ::
          (c :: (B ++ ['\n', '`', '`', '`']))) =
        (c :: (B ++ ['\n', '`', '`', '`'])) :: junk := by
      rw [headerSplits, wsSplits_not_ws (by decide)]
      simp only [List.flatMap_cons, List.flatMap_nil, List.append_nil]
      have hlang : langSplits ('p' :: 'y' :: 't' :: 'h' :: 'o' :: 'n' :: '\n' ::
          (c :: (B ++ ['\n', '`', '`', '`']))) =
          ['\n' :: (c :: (B ++ ['\n', '`', '`', '`'])),
            't' :: 'h' :: 'o' :: 'n' :: '\n' :: (c :: (B ++ ['\n', '`', '`', '`'])),
            'p' :: 'y' :: 't' :: 'h' :: 'o' :: 'n' :: '\n' ::
              (c :: (B ++ ['\n', '`', '`', '`']))] := rfl
      rw [hlang]
      simp only [List.flatMap_cons, List.flatMap_nil, List.append_nil, hg1]
      exact ⟨_, rfl⟩
    obtain ⟨junk, hj⟩ := hheader
    have hclose : findClose (c :: (B ++ ['\n', '`', '`', '`'])) = some (c :: B) := by
      have := findClose_append_close (c :: B) hni
      rw [List.cons_append] at this
      exact this
    have hfb : fenceBodyAt ('`' :: '`' :: '`' :: 'p' :: 'y' :: 't' :: 'h' :: 'o' ::
        'n' :: '\n' :: (c :: (B ++ ['\n', '`', '`', '`']))) = some (c :: B) := by
      have hstep : fenceBodyAt ('`' :: '`' :: '`' :: 'p' :: 'y' :: 't' :: 'h' ::
          'o' :: 'n' :: '\n' :: (c :: (B ++ ['\n', '`', '`', '`']))) =
          firstSome ((headerSplits ('p' :: 'y' :: 't' :: 'h' :: 'o' :: 'n' ::
            '\n' :: (c :: (B ++ ['\n', '`', '`', '`'])))).map findClose) := rfl
      rw [hstep, hj]
      simp only [List.map_cons, hclose]
      rfl
    simp only [searchFence, hfb, strip_markdown_code_fences]

/-- Witness for C8: a fence-free response passes through unchanged, and a
```python fenced block yields the trimmed content. -/
theorem modify_code_fence_stripping_witness :
    (¬ List.IsInfix ['`', '`', '`'] "print(1)".data ∧
      strip_markdown_code_fences "print(1)".data = "print(1)".data) ∧
    (isPySpace 'x' = false ∧ ¬ List.IsInfix ['`', '`', '`'] ('x' :: " = 1".data) ∧
      strip_markdown_code_fences
          ("```python\n".data ++ ('x' :: " = 1".data) ++ "\n```".data) =
        pyStrip ('x' :: " = 1".data)) := by
  refine ⟨⟨by decide, ?_⟩, by decide, by decide, ?_⟩
  · exact (modify_code_fence_stripping.1 "print(1)".data (by decide)).2 (by decide)
  · exact modify_code_fence_stripping.2 'x' " = 1".data (by decide) (by decide)

/-- C2: whenever `iterations >= max_iterations`, the routing decision is
`finish` and the graph invocation performs no handler dispatch; in
particular `run(state)` with `max_iterations = 0` returns immediately with
decision `finish` and zero handler dispatches. -/
theorem iteration_cap_finishes :
    (∀ s : GState, s.maxIterations.getD 5 ≤ s.iterations.getD 0 →
      decideNext s = .finish ∧
      ∀ (handler : GDecision → GState → GState) (fuel : Nat), 1 ≤ fuel →
        graphInvoke handler fuel s = some (s, 0)) ∧
    (∀ (handler : GDecision → GState → GState) (ifuel ofuel : Nat),
      1 ≤ ifuel → 1 ≤ ofuel →
      ∃ sf, runG handler 0 ifuel ofuel = some (sf, 0) ∧
        decideNext sf = .finish) := by
  constructor
  · intro s h
    have hfin : decideNext s = .finish := by
      simp only [decideNext]
      rw [if_pos h]
    refine ⟨hfin, ?_⟩
    intro handler fuel hfuel
    obtain ⟨k, rfl⟩ : ∃ k, fuel = k + 1 := ⟨fuel - 1, by omega⟩
    simp [graphInvoke, hfin]
  · intro handler ifuel ofuel hif hof
    obtain ⟨k, rfl⟩ : ∃ k, ifuel = k + 1 := ⟨ifuel - 1, by omega⟩
    obtain ⟨j, rfl⟩ : ∃ j, ofuel = j + 1 := ⟨ofuel - 1, by omega⟩
    have hfin0 : decideNext (initialGState 0) = .finish := by
      simp [decideNext, initialGState]
    have hinv : graphInvoke handler (k + 1) (initialGState 0) =
        some (initialGState 0, 0) := by
      simp [graphInvoke, hfin0]
    refine ⟨{ initialGState 0 with iterations := some 1 }, ?_, ?_⟩
    · simp only [runG, runLoop]
      rw [hinv]
      simp [decideNext, initialGState]
    · simp [decideNext, initialGState]

/-- Witness for C2: a concrete capped state routes to `finish` with zero
dispatches, and a `max_iterations = 0` run returns at once. -/
theorem iteration_cap_finishes_witness :
    ((⟨some 3, some 2, none, none, none⟩ : GState).maxIterations.getD 5 ≤
      (⟨some 3, some 2, none, none, none⟩ : GState).iterations.getD 0) ∧
    decideNext ⟨some 3, some 2, none, none, none⟩ = .finish ∧
    graphInvoke demoHandler 1 ⟨some 3, some 2, none, none, none⟩ =
      some (⟨some 3, some 2, none, none, none⟩, 0) ∧
    (∃ sf, runG demoHandler 0 1 1 = some (sf, 0) ∧ decideNext sf = .finish) := by
  refine ⟨by decide, ?_, ?_, ?_⟩
  · exact (iteration_cap_finishes.1 _ (by decide)).1
  · exact (iteration_cap_finishes.1 _ (by decide)).2 demoHandler 1 (by decide)
  · exact iteration_cap_finishes.2 demoHandler 1 1 (by decide) (by decide)

/-- Counterexample to C3 as stated: in the run with `max_iterations = 5`
whose test passes on the first try, a single graph invocation dispatches
two handlers (`modify_code`, then `run_test`) while `iterations` rises by
one in total — dispatching the non-finish decision `modify_code` itself
leaves the counter unchanged, so `iterations` is not incremented once per
Action Handler dispatch. -/
theorem iterations_per_dispatch_counterexample :
    decideNext (initialGState 5) = .modify_code ∧
    decideNext (initialGState 5) ≠ .finish ∧
    (demoHandler .modify_code (initialGState 5)).iterations =
      (initialGState 5).iterations ∧
    runG demoHandler 5 5 5 =
      some (⟨some 1, some 5, some "code", some ⟨true⟩, none⟩, 2) ∧
    ¬ (1 : Nat) = 2 := by
  exact ⟨rfl, by decide, rfl, by decide, by decide⟩

/-- C3 amended: `iterations` is incremented exactly once per graph
invocation (one pass of the `run` loop), not once per handler dispatch: for
handlers that do not touch the counter (as none of the four node tools do),
the state returned by an invocation — which may have dispatched several
handlers — carries `iterations` unchanged, and the loop then adds exactly
one. -/
theorem iterations_per_invocation (handler : GDecision → GState → GState)
    (hh : ∀ d s, (handler d s).iterations = s.iterations) :
    ∀ (ifuel : Nat) (s s1 : GState) (n : Nat),
      graphInvoke handler ifuel s = some (s1, n) →
      s1.iterations = s.iterations ∧
      ({ s1 with iterations := some (s1.iterations.getD 0 + 1) } :
        GState).iterations.getD 0 = s.iterations.getD 0 + 1 := by
  intro ifuel
  induction ifuel with
  | zero =>
    intro s s1 n h
    simp [graphInvoke] at h
  | succ k ih =>
    intro s s1 n h
    by_cases hd : decideNext s = .finish
    · simp [graphInvoke, hd] at h
      obtain ⟨h1, _⟩ := h
      rw [← h1]
      exact ⟨rfl, rfl⟩
    · cases hrec : graphInvoke handler k (handler (decideNext s) s) with
      | none => simp [graphInvoke, hd, hrec] at h
      | some p =>
        obtain ⟨s2, m⟩ := p
        simp [graphInvoke, hd, hrec] at h
        obtain ⟨h1, _⟩ := h
        have hpres : s1.iterations = s.iterations := by
          rw [← h1, (ih (handler (decideNext s) s) s2 m hrec).1, hh]
        exact ⟨hpres, by simp [hpres]⟩

/-- Witness for the amended C3: the two-dispatch invocation of the
counterexample run increments the counter exactly once. -/
theorem iterations_per_invocation_witness :
    (∀ d s, (demoHandler d s).iterations = s.iterations) ∧
    ((⟨some 0, some 5, some "code", some ⟨true⟩, none⟩ : GState).iterations =
        (initialGState 5).iterations ∧
      ({ (⟨some 0, some 5, some "code", some ⟨true⟩, none⟩ : GState) with
          iterations := some ((⟨some 0, some 5, some "code", some ⟨true⟩,
            none⟩ : GState).iterations.getD 0 + 1) } :
        GState).iterations.getD 0 = (initialGState 5).iterations.getD 0 + 1) := by
  have hh : ∀ d s, (demoHandler d s).iterations = s.iterations := by
    intro d s
    cases d <;> rfl
  exact ⟨hh, iterations_per_invocation demoHandler hh 5 (initialGState 5) _ 2
    (by decide)⟩

/-- C4, evaluated on the code: even when a recording has already been
captured (`current_recording_code is not None`), `record_user_input` is
still among the available actions offered to the model — the source
`add`s it back (a no-op) where its own comment says the intent is not to
ask again; only `decide_next_action` is ever excluded. -/
theorem decide_next_action_offers_record_input :
    Decision.record_user_input ∈ availableActions true ∧
    Decision.record_user_input ∈ availableActions false ∧
    Decision.deside_next_action ∉ availableActions true ∧
    Decision.deside_next_action ∉ availableActions false := by
  decide

/-- C9: the DOM exploration command interpreter is total — every command
string on every document yields an `.ok` result (a string, or the `None`
finish sentinel), never a raised exception; malformed input yields the
structured parse-error feedback string; a `show`/`expand` depth outside
`[1, 5]` (for example `--depth 6`) is rejected with an error message; and a
selector matching no element returns the ranked-suggestions string rather
than a bare failure. -/
theorem html_exploration_engine_safe :
    (∀ (cmd : String) (doc : HNode),
      ∃ r, execute_html_exploration cmd doc = .ok r) ∧
    (∀ (cmd : String) (doc : HNode) (e : String),
      parse_command (cleanCommand cmd) = .error e →
      execute_html_exploration cmd doc = .ok (some ("❌ Command parsing error: "
        ++ e ++
        "\n\n💡 Use help to see available commands and syntax or finish to finish the exploration."))) ∧
    (∀ (doc : HNode) (sel : String) (d : Int), d < 1 ∨ d > 5 →
      execute_expand_command doc sel d = "❌ Depth must be between 1 and 5" ∧
      execute_show_command doc d = "❌ Depth must be between 1 and 5") ∧
    (∀ doc : HNode, execute_html_exploration "expand body --depth 6" doc =
      .ok (some "❌ Depth must be between 1 and 5")) ∧
    (∀ (doc : HNode) (sel : String) (d : Int), 1 ≤ d → d ≤ 5 →
      findElementByCss doc sel = none →
      execute_expand_command doc sel d =
        "❌ Could not find element with selector: " ++ sel ++
          "\n\n💡 Try these selectors instead:\n" ++ navSuggestions doc sel) ∧
    (∀ doc : HNode, execute_html_exploration "finish" doc = .ok none) := by
  refine ⟨?_, ?_, ?_, ?_, ?_, ?_⟩
  · intro cmd doc
    cases hres : execute_html_exploration cmd doc with
    | ok r => exact ⟨r, rfl⟩
    | error e =>
      exfalso
      cases hp : parse_command (cleanCommand cmd) with
      | error pe => simp [execute_html_exploration, hp] at hres
      | ok c => simp [execute_html_exploration, hp] at hres
  · intro cmd doc e hp
    simp only [execute_html_exploration, hp]
  · intro doc sel d hd
    constructor
    · simp only [execute_expand_command]
      rw [if_pos hd]
    · simp only [execute_show_command]
      rw [if_pos hd]
  · intro doc
    rfl
  · intro doc sel d h1 h2 hfind
    simp only [execute_expand_command]
    rw [if_neg (by omega), hfind]
  · intro doc
    rfl

/-- Witness for C9: on a concrete document, depth 6 is rejected, an
unmatched id selector gets the suggestion string, parsing garbage feeds back
an error string, and `finish` yields the sentinel. -/
theorem html_exploration_engine_safe_witness :
    (∃ r, execute_html_exploration "expand body --depth 6" demoDoc = .ok r) ∧
    execute_html_exploration "expand body --depth 6" demoDoc =
      .ok (some "❌ Depth must be between 1 and 5") ∧
    (parse_command (cleanCommand "frobnicate") =
      .error "argument command: invalid choice: frobnicate" ∧
      ∃ s, execute_html_exploration "frobnicate" demoDoc = .ok (some s)) ∧
    ((1 : Int) ≤ 3 ∧ (3 : Int) ≤ 5 ∧ findElementByCss demoDoc "#nope" = none) ∧
    execute_expand_command demoDoc "#nope" 3 =
      "❌ Could not find element with selector: #nope" ++
        "\n\n💡 Try these selectors instead:\n" ++ navSuggestions demoDoc "#nope" ∧
    execute_html_exploration "finish" demoDoc = .ok none := by
  have hfind : findElementByCss demoDoc "#nope" = none := by
    have hstage : findElementByCss demoDoc "#nope" =
        selMatchNode [SimpleSel.idSel "nope"] demoDoc := rfl
    rw [hstage]
    simp [selMatchNode, selMatchList, nodeMatches, getAttr, demoDoc]
  refine ⟨html_exploration_engine_safe.1 "expand body --depth 6" demoDoc,
    html_exploration_engine_safe.2.2.2.1 demoDoc,
    ⟨rfl, ⟨_, html_exploration_engine_safe.2.1 "frobnicate" demoDoc _ rfl⟩⟩,
    ⟨by decide, by decide, hfind⟩,
    ?_,
    html_exploration_engine_safe.2.2.2.2.2 demoDoc⟩
  have h := html_exploration_engine_safe.2.2.2.2.1 demoDoc "#nope" 3
    (by decide) (by decide) hfind
  rw [h]
  rfl

theorem run_test_error_only_extract {w : RunTestWorld} {e : String}
    (he : run_test w = .error e) : w.extract = .otherError e := by
  cases hx : w.extract with
  | otherError m =>
    simp only [run_test, hx] at he
    cases he
    rfl
  | extractionError m => simp [run_test, hx] at he
  | ok =>
    cases hl : w.launch with
    | fail m => simp [run_test, hx, hl] at he
    | ok =>
      cases ht : w.test <;> cases ha : w.artifacts <;>
        simp [run_test, hx, hl, ht, ha] at he

/-- C5: `run_test` produces exactly one `TestRunResult` under every outcome
except a non-extraction exception during extraction; a failing test never
raises and is surfaced as `success = false` with the traceback populated;
and the only raising path is that infrastructure failure. -/
theorem run_test_contract :
    (∀ w : RunTestWorld, (∀ m, w.extract ≠ .otherError m) →
      ∃ r, run_test w = .ok r) ∧
    (∀ (w : RunTestWorld) (tb : String), w.extract = .ok → w.launch = .ok →
      w.test = .fail tb →
      ∃ r, run_test w = .ok r ∧ r.success = false ∧ r.traceback = some tb) ∧
    (∀ (w : RunTestWorld) (e : String), run_test w = .error e →
      w.extract = .otherError e) := by
  refine ⟨?_, ?_, ?_⟩
  · intro w hno
    cases hres : run_test w with
    | ok r => exact ⟨r, rfl⟩
    | error e => exact absurd (run_test_error_only_extract hres) (hno e)
  · intro w tb hx hl ht
    cases ha : w.artifacts with
    | ok html img =>
      exact ⟨⟨false, w.dur, some tb, some w.out, some w.err, some html,
        some img⟩, by simp [run_test, hx, hl, ht, ha], rfl, rfl⟩
    | failAfterHtml html m =>
      exact ⟨⟨false, w.dur, some tb, some w.out, some w.err, some html, none⟩,
        by simp [run_test, hx, hl, ht, ha], rfl, rfl⟩
    | fail m =>
      exact ⟨⟨false, w.dur, some tb, some w.out, some w.err, none, none⟩,
        by simp [run_test, hx, hl, ht, ha], rfl, rfl⟩
  · intro w e he
    exact run_test_error_only_extract he

/-- Witness for C5: a concrete world whose test raises — the result is a
single `TestRunResult` with `success = false` and the traceback filled. -/
theorem run_test_contract_witness :
    ((⟨.ok, .ok, .fail "Trace", .ok "<html>" 7, 2, "", ""⟩ :
        RunTestWorld).extract = .ok) ∧
    (∃ r, run_test ⟨.ok, .ok, .fail "Trace", .ok "<html>" 7, 2, "", ""⟩ =
      .ok r ∧ r.success = false ∧ r.traceback = some "Trace") := by
  refine ⟨rfl, ?_⟩
  exact run_test_contract.2.1 ⟨.ok, .ok, .fail "Trace", .ok "<html>" 7, 2, "", ""⟩
    "Trace" rfl rfl rfl

set_option maxRecDepth 4000 in
/-- Witness for C10: a concrete header with no blank line; the code body
round-trips modulo stripping. -/
theorem current_test_code_roundtrip_witness :
    ¬ List.IsInfix ['\n', '\n']
      (trestoHeader "0.1.0".data "login".data "check login".data) ∧
    get_current_test_code (some (set_current_test_code "0.1.0".data
      "login".data "check login".data "  x = 1\n".data)) =
      some "x = 1".data := by
  constructor
  · decide
  · have h := (current_test_code_roundtrip "0.1.0".data "login".data
      "check login".data "  x = 1\n".data (by decide)).1
    rw [h]
    rfl

/-- Counterexample to C6 as stated: an inspection sub-task of
`inspect_html_tool` that exits by an exception (the LLM call of the second
round raising) leaves the two scratch messages appended by the first round
in place — there is no `try`/`finally` around the loop, so
`len(scratch_after) = 2 ≠ 0` on the exception path. -/
theorem scratch_not_cleared_on_exception :
    inspectHtmlLoop demoDoc [LlmOutcome.reply "bogus", LlmOutcome.raise]
      ⟨["sys"], []⟩ = .exc scratchCexState ∧
    scratchCexState.localMessages.length = 2 ∧ (2 : Nat) ≠ 0 := by
  exact ⟨rfl, rfl, by decide⟩

/-- C6 amended: the scratch sequence is empty after
`playwright_iterate_cycle` exits, on both the normal and the exceptional
path (its body runs inside the spec-modelled `temporary_messages` scope),
and after `inspect_html_tool` exits by normal completion; an exceptional
exit of `inspect_html_tool` is not covered by the guarantee. -/
theorem scratch_cleared_on_exit :
    (∀ (body : ConvState → Except ConvState ConvState) (report : String)
      (st st1 : ConvState), playwright_iterate_cycle body report st = .ok st1 →
      st1.localMessages = []) ∧
    (∀ (body : ConvState → Except ConvState ConvState) (report : String)
      (st st1 : ConvState), playwright_iterate_cycle body report st = .error st1 →
      st1.localMessages = []) ∧
    (∀ (doc : HNode) (script : List LlmOutcome) (st st1 : ConvState),
      inspectHtmlLoop doc script st = .normal st1 → st1.localMessages = []) := by
  refine ⟨?_, ?_, ?_⟩
  · intro body report st st1 h
    cases hb : body st with
    | ok st2 =>
      simp [playwright_iterate_cycle, temporary_messages, hb] at h
      rw [← h]
    | error st2 =>
      simp [playwright_iterate_cycle, temporary_messages, hb] at h
  · intro body report st st1 h
    cases hb : body st with
    | ok st2 =>
      simp [playwright_iterate_cycle, temporary_messages, hb] at h
    | error st2 =>
      simp [playwright_iterate_cycle, temporary_messages, hb] at h
      rw [← h]
  · intro doc script
    induction script with
    | nil =>
      intro st st1 h
      simp [inspectHtmlLoop] at h
    | cons o rest ih =>
      intro st st1 h
      cases o with
      | raise => simp [inspectHtmlLoop] at h
      | reply cmd =>
        cases hr : execute_html_exploration cmd doc with
        | error e =>
          simp only [inspectHtmlLoop, hr] at h
          exact ih _ _ h
        | ok r =>
          cases r with
          | none =>
            simp only [inspectHtmlLoop, hr] at h
            exact ih _ _ h
          | some res =>
            by_cases hf : containsFinished res = true
            · simp only [inspectHtmlLoop, hr, hf, if_pos] at h
              cases h
              rfl
            · rw [Bool.not_eq_true] at hf
              simp only [inspectHtmlLoop, hr, hf, Bool.false_eq_true,
                if_false] at h
              exact ih _ _ h

/-- Witness for the amended C6: a concrete playwright cycle whose body
appends a scratch message exits with scratch empty, and a concrete
inspection run that sees the finish sentinel exits normally with scratch
empty. -/
theorem scratch_cleared_on_exit_witness :
    (playwright_iterate_cycle
        (fun st => .ok ⟨st.messages, st.localMessages ++ ["note"]⟩) "report"
        ⟨[], []⟩ =
      .ok ⟨["Model investigated the website using playwright automation and generated the following report.",
        "report"], []⟩ ∧
      (⟨["Model investigated the website using playwright automation and generated the following report.",
        "report"], []⟩ : ConvState).localMessages = []) ∧
    (∃ st1, inspectHtmlLoop sentinelDoc [LlmOutcome.reply "text body"]
        ⟨["m"], []⟩ = .normal st1 ∧ st1.localMessages = []) := by
  constructor
  · refine ⟨rfl, ?_⟩
    exact scratch_cleared_on_exit.1
      (fun st => .ok ⟨st.messages, st.localMessages ++ ["note"]⟩) "report"
      ⟨[], []⟩ _ rfl
  · have hfindb : findElementByCss sentinelDoc "body" = some sentinelDoc := by
      have hstage : findElementByCss sentinelDoc "body" =
          selMatchNode [SimpleSel.tag "body"] sentinelDoc := rfl
      rw [hstage]
      simp [selMatchNode, nodeMatches, sentinelDoc]
    have hct : collectText sentinelDoc = "EXPLORATION_FINISHED" := by
      simp only [sentinelDoc, collectText, collectTextList]
      rfl
    have htext : execute_text_command sentinelDoc "body" =
        "📝 Text content of body:\nEXPLORATION_FINISHED" := by
      simp only [execute_text_command, hfindb, hct]
      rfl
    have hx : execute_html_exploration "text body" sentinelDoc =
        .ok (some "📝 Text content of body:\nEXPLORATION_FINISHED") := by
      have h1 : execute_html_exploration "text body" sentinelDoc =
          .ok (some (execute_text_command sentinelDoc "body")) := rfl
      rw [h1, htext]
    have hrun : inspectHtmlLoop sentinelDoc [LlmOutcome.reply "text body"]
        ⟨["m"], []⟩ =
        .normal ⟨["m", "Command: text body",
          "HTML exploration result:\n📝 Text content of body:\nEXPLORATION_FINISHED"],
          []⟩ := by
      simp only [inspectHtmlLoop, hx]
      rw [if_pos (by decide)]
      rfl
    refine ⟨_, hrun, ?_⟩
    exact scratch_cleared_on_exit.2.2 sentinelDoc [LlmOutcome.reply "text body"]
      ⟨["m"], []⟩ _ hrun

/-- Witness for C1: a concrete two-snapshot store; a timestamp past the end
raises, and the equidistant query at 5 returns the earlier snapshot. -/
theorem snapshot_store_query_contract_witness :
    ((demoManager.sources.htmlSnapshots.map Prod.fst).Nodup ∧
      (demoManager.sources.screenshots.map Prod.fst).Nodup) ∧
    demoManager.get_html_at (some 12) = .error .outOfRange ∧
    demoManager.get_html_at (some 5) = .ok "a" := by
  refine ⟨⟨by decide, by decide⟩, ?_, ?_⟩
  · exact ((snapshot_store_query_contract demoManager (by decide) (by decide)).1
      12 (by decide)).1
  · rfl

end Tresto
